import Mathlib

/-
Verification of the rune expression-parsing core (crates/rune/src/ast/expr.rs,
label.rs, expr_block.rs) against its natural-language specification.

The embedding is shallow: the data model and each in-scope function of the
source are translated into executable Lean definitions.  External
collaborators (the lexer, the attribute/path/pattern sub-grammars, the binary
operator table, text storage) are abstracted as an explicit record of
sub-parser functions (`Ext`) threaded through the parser, exactly where the
source calls out to them.  The mutual recursion of the parser is tied with an
explicit fuel parameter (`parseRec`); each nested call costs one unit.
-/

set_option linter.unusedVariables false

namespace Rune

/-- A byte span in the source text, as in runestick's `Span`. -/
structure Span where
  start : Nat
  finish : Nat
deriving DecidableEq

/-- Join two spans: the smallest span covering both. -/
def Span.join (a b : Span) : Span :=
  ⟨Nat.min a.start b.start, Nat.max a.finish b.finish⟩

/-- Modelled from the spec: runestick's `Span::trim_start` is outside src/;
per the spec it drops the given number of leading bytes (used to trim the
leading label sigil). -/
def Span.trim_start (s : Span) (n : Nat) : Span :=
  ⟨s.start + n, s.finish⟩

/-- Token kinds the in-scope parser dispatches on.  Kinds that only external
sub-parsers look at are represented by `other`. -/
inductive Kind where
  | openBracket | closeBracket | openParen | closeParen
  | question | eqK | dot | awaitKw
  | bang | pipePipe | pipe | selectKw | minus | amp | star
  | whileKw | loopKw | forKw | letKw | ifKw | matchKw
  | openBrace | closeBrace
  | breakKw | yieldKw | returnKw
  | colon | asyncKw
  | ident (name : Nat)
  | litNumber (value : Nat)
  | labelK (data : Nat)
  | plus | lt | comma
  | eof
  | other (data : Nat)
deriving DecidableEq

/-- A token: a span plus a kind. -/
structure Token where
  span : Span
  kind : Kind
deriving DecidableEq

/-- The structured error kinds of the in-scope error taxonomy
(`ParseErrorKind`), plus `outOfFuel` for fuel exhaustion of the embedding and
`extError` for failures chosen by abstract external sub-parsers. -/
inductive ParseErrorKind where
  | expected (actual : Kind) (what : String)
  | tokenMismatch (expected : Kind) (actual : Kind)
  | unsupportedLabel
  | unsupportedAsync
  | unsupportedFieldAccess
  | precedenceGroupRequired
  | attributesNotSupported
  | badSlice
  | badSyntheticId (kind : String) (id : Nat)
  | outOfFuel
  | extError (data : Nat)
deriving DecidableEq

/-- A parse error: a span plus a structured kind. -/
structure ParseError where
  span : Span
  kind : ParseErrorKind
deriving DecidableEq

/-- An attribute node (external `ast::Attribute`): its span plus opaque payload. -/
structure Attribute where
  span : Span
  data : Nat
deriving DecidableEq

/-- `Vec<Attribute>::option_span()`: the span covering the whole attribute
list, `none` when the list is empty. -/
def optionSpan (attrs : List Attribute) : Option Span :=
  match attrs with
  | [] => none
  | a :: rest => some (rest.foldl (fun acc b => acc.join b.span) a.span)

/-- An identifier (external `ast::Ident`). -/
structure Ident where
  span : Span
  name : Nat
deriving DecidableEq

/-- A path (external `ast::Path`): its span, the result of `try_as_ident`
(the single plain identifier when the path is one), and opaque payload. -/
structure Path where
  span : Span
  ident : Option Ident
  data : Nat
deriving DecidableEq

/-- Modelled from the spec: `ast::Path::try_as_ident` is outside src/; it
returns the identifier exactly when the path is a single plain identifier. -/
def Path.try_as_ident (p : Path) : Option Ident :=
  p.ident

/-- A numeric literal token (external `ast::LitNumber`). -/
structure NumberLit where
  span : Span
  value : Nat
deriving DecidableEq

/-- A literal (external `ast::Lit`); only the `Number` variant is inspected by
the in-scope code, the rest carry opaque payloads. -/
inductive Lit where
  | number (n : NumberLit)
  | object (span : Span) (data : Nat)
  | tuple (span : Span) (data : Nat)
  | other (span : Span) (data : Nat)
deriving DecidableEq

/-- Span of a literal. -/
def Lit.span : Lit → Span
  | .number n => n.span
  | .object s _ => s
  | .tuple s _ => s
  | .other s _ => s

/-- Payload of an expression variant whose own parser is an external
collaborator (while/loop/for/let/if/match/select/closure/unary/break/yield/
return/macro-call): its attribute list, its span, and opaque payload. -/
structure ExtPayload where
  attributes : List Attribute
  span : Span
  data : Nat
deriving DecidableEq

/-- Modelled from the spec: `ast::Item` is outside src/; per the spec items
delegate to their own attribute store, so the model carries the attribute
list plus opaque payload. -/
structure Item where
  attributes : List Attribute
  span : Span
  data : Nat
deriving DecidableEq

/-- Modelled from the spec: `ast::Item::take_attributes` empties the item's
own attribute store and returns the taken list. -/
def Item.take_attributes (i : Item) : List Attribute × Item :=
  (i.attributes, { i with attributes := [] })

/-- A block (external `ast::Block`). -/
structure Block where
  span : Span
  data : Nat
deriving DecidableEq

/-- A parenthesized comma-separated argument list
(external `ast::Parenthesized<Expr, Comma>`), abstracted. -/
structure ArgList where
  span : Span
  data : Nat
deriving DecidableEq

/-- `ast::ExprField`: a named field or a tuple-index field. -/
inductive ExprField where
  | identF (i : Ident)
  | litNumberF (n : NumberLit)
deriving DecidableEq

/-- Span of a field selector. -/
def ExprField.span : ExprField → Span
  | .identF i => i.span
  | .litNumberF n => n.span

/-- Modelled from the spec: `ast::BinOp` (the operator table) is outside
src/; an operator carries its precedence, its associativity flag, whether it
occupies two token positions, and an identifying tag. -/
structure BinOp where
  prec : Nat
  assoc : Bool
  two : Bool
  tag : Nat
deriving DecidableEq

/-- The tagged union of expression variants (`ast::Expr`).  Variants whose
payload structure is in scope carry their fields directly; variants whose
sub-parser and payload are external carry an `ExtPayload`. -/
inductive Expr where
  | path (p : Path)
  | item (i : Item)
  | exprAssign (attributes : List Attribute) (lhs : Expr) (eq : Token) (rhs : Expr)
  | exprWhile (w : ExtPayload)
  | exprLoop (w : ExtPayload)
  | exprFor (w : ExtPayload)
  | exprLet (w : ExtPayload)
  | exprIf (w : ExtPayload)
  | exprMatch (w : ExtPayload)
  | exprCall (id : Nat) (attributes : List Attribute) (callee : Expr) (args : ArgList)
  | macroCall (w : ExtPayload)
  | exprFieldAccess (attributes : List Attribute) (target : Expr) (dot : Token)
      (expr_field : ExprField)
  | exprGroup (attributes : List Attribute) (openTok : Token) (inner : Expr)
      (closeTok : Token)
  | exprBinary (attributes : List Attribute) (lhs : Expr) (t1 : Token)
      (t2 : Option Token) (rhs : Expr) (op : BinOp)
  | exprUnary (w : ExtPayload)
  | exprIndex (attributes : List Attribute) (target : Expr) (openTok : Token)
      (index : Expr) (closeTok : Token)
  | exprBreak (w : ExtPayload)
  | exprYield (w : ExtPayload)
  | exprBlock (attributes : List Attribute) (asyncToken : Option Token)
      (constToken : Option Token) (moveToken : Option Token) (block : Block)
  | exprReturn (w : ExtPayload)
  | exprAwait (attributes : List Attribute) (target : Expr) (dot : Token)
      (awaitToken : Token)
  | exprTry (attributes : List Attribute) (inner : Expr) (tryToken : Token)
  | exprSelect (w : ExtPayload)
  | exprClosure (w : ExtPayload)
  | exprLit (attributes : List Attribute) (lit : Lit)
deriving DecidableEq

/-- Join an optional span (e.g. of an attribute list) onto a span. -/
def optJoin (o : Option Span) (s : Span) : Span :=
  match o with
  | none => s
  | some a => a.join s

/-- Span of an expression: the union of its components' spans (spec §3:
every node's span is the union of its children's spans; the derive in the
source is external). -/
def Expr.span : Expr → Span
  | .path p => p.span
  | .item i => optJoin (optionSpan i.attributes) i.span
  | .exprAssign a l e r => optJoin (optionSpan a) ((l.span.join e.span).join r.span)
  | .exprWhile w => optJoin (optionSpan w.attributes) w.span
  | .exprLoop w => optJoin (optionSpan w.attributes) w.span
  | .exprFor w => optJoin (optionSpan w.attributes) w.span
  | .exprLet w => optJoin (optionSpan w.attributes) w.span
  | .exprIf w => optJoin (optionSpan w.attributes) w.span
  | .exprMatch w => optJoin (optionSpan w.attributes) w.span
  | .exprCall _ a c args => optJoin (optionSpan a) (c.span.join args.span)
  | .macroCall w => optJoin (optionSpan w.attributes) w.span
  | .exprFieldAccess a t d f =>
      optJoin (optionSpan a) ((t.span.join d.span).join f.span)
  | .exprGroup a o i c => optJoin (optionSpan a) ((o.span.join i.span).join c.span)
  | .exprBinary a l t1 t2 r _ =>
      optJoin (optionSpan a)
        (((l.span.join t1.span).join (optJoin (t2.map Token.span) r.span)))
  | .exprUnary w => optJoin (optionSpan w.attributes) w.span
  | .exprIndex a t o i c =>
      optJoin (optionSpan a) (((t.span.join o.span).join i.span).join c.span)
  | .exprBreak w => optJoin (optionSpan w.attributes) w.span
  | .exprYield w => optJoin (optionSpan w.attributes) w.span
  | .exprBlock a asy c m b =>
      optJoin (optionSpan a)
        (optJoin (asy.map Token.span)
          (optJoin (c.map Token.span) (optJoin (m.map Token.span) b.span)))
  | .exprReturn w => optJoin (optionSpan w.attributes) w.span
  | .exprAwait a t d aw =>
      optJoin (optionSpan a) ((t.span.join d.span).join aw.span)
  | .exprTry a i t => optJoin (optionSpan a) (i.span.join t.span)
  | .exprSelect w => optJoin (optionSpan w.attributes) w.span
  | .exprClosure w => optJoin (optionSpan w.attributes) w.span
  | .exprLit a l => optJoin (optionSpan a) l.span

/-- `Expr::needs_semi`: whether the expression needs a trailing semicolon or
must be last in a block. -/
def Expr.needs_semi : Expr → Bool
  | .exprWhile _ => false
  | .exprLoop _ => false
  | .exprFor _ => false
  | .exprIf _ => false
  | .exprMatch _ => false
  | .exprBlock _ _ _ _ _ => false
  | .exprSelect _ => false
  | _ => true

/-- `Expr::is_chainable`: whether the expression should be chained by default. -/
def Expr.is_chainable : Expr → Bool
  | .exprWhile _ => false
  | .exprLoop _ => false
  | .exprFor _ => false
  | _ => true

/-- `Expr::take_attributes`: take the attributes out of the expression.  The
source mutates in place; the pure model returns the taken list together with
the updated node. -/
def Expr.take_attributes : Expr → List Attribute × Expr
  | .path p => ([], .path p)
  | .item i =>
      let (a, i2) := i.take_attributes
      (a, .item i2)
  | .exprBreak w => (w.attributes, .exprBreak { w with attributes := [] })
  | .exprYield w => (w.attributes, .exprYield { w with attributes := [] })
  | .exprBlock a asy c m b => (a, .exprBlock [] asy c m b)
  | .exprReturn w => (w.attributes, .exprReturn { w with attributes := [] })
  | .exprClosure w => (w.attributes, .exprClosure { w with attributes := [] })
  | .exprMatch w => (w.attributes, .exprMatch { w with attributes := [] })
  | .exprWhile w => (w.attributes, .exprWhile { w with attributes := [] })
  | .exprLoop w => (w.attributes, .exprLoop { w with attributes := [] })
  | .exprFor w => (w.attributes, .exprFor { w with attributes := [] })
  | .exprLet w => (w.attributes, .exprLet { w with attributes := [] })
  | .exprIf w => (w.attributes, .exprIf { w with attributes := [] })
  | .exprSelect w => (w.attributes, .exprSelect { w with attributes := [] })
  | .exprLit a l => (a, .exprLit [] l)
  | .exprAssign a l e r => (a, .exprAssign [] l e r)
  | .exprBinary a l t1 t2 r op => (a, .exprBinary [] l t1 t2 r op)
  | .exprCall id a c args => (a, .exprCall id [] c args)
  | .macroCall w => (w.attributes, .macroCall { w with attributes := [] })
  | .exprFieldAccess a t d f => (a, .exprFieldAccess [] t d f)
  | .exprGroup a o i c => (a, .exprGroup [] o i c)
  | .exprUnary w => (w.attributes, .exprUnary { w with attributes := [] })
  | .exprIndex a t o i c => (a, .exprIndex [] t o i c)
  | .exprAwait a t d aw => (a, .exprAwait [] t d aw)
  | .exprTry a i t => (a, .exprTry [] i t)

/-- `Expr::attributes`: read-only access to the attributes of the expression. -/
def Expr.attributes : Expr → List Attribute
  | .path _ => []
  | .item i => i.attributes
  | .exprBreak w => w.attributes
  | .exprYield w => w.attributes
  | .exprBlock a _ _ _ _ => a
  | .exprReturn w => w.attributes
  | .exprClosure w => w.attributes
  | .exprMatch w => w.attributes
  | .exprWhile w => w.attributes
  | .exprLoop w => w.attributes
  | .exprFor w => w.attributes
  | .exprLet w => w.attributes
  | .exprIf w => w.attributes
  | .exprSelect w => w.attributes
  | .exprLit a _ => a
  | .exprAssign a _ _ _ => a
  | .exprBinary a _ _ _ _ _ => a
  | .exprCall _ a _ _ => a
  | .macroCall w => w.attributes
  | .exprFieldAccess a _ _ _ => a
  | .exprGroup a _ _ _ => a
  | .exprUnary w => w.attributes
  | .exprIndex a _ _ _ _ => a
  | .exprAwait a _ _ _ => a
  | .exprTry a _ _ => a

/-- Replace exactly the attribute-list field of the node, leaving every other
field unchanged (used to state the frame property of `take_attributes`; the
path variant has no attribute field and is left whole). -/
def Expr.setAttributes : Expr → List Attribute → Expr
  | .path p, _ => .path p
  | .item i, v => .item { i with attributes := v }
  | .exprBreak w, v => .exprBreak { w with attributes := v }
  | .exprYield w, v => .exprYield { w with attributes := v }
  | .exprBlock _ asy c m b, v => .exprBlock v asy c m b
  | .exprReturn w, v => .exprReturn { w with attributes := v }
  | .exprClosure w, v => .exprClosure { w with attributes := v }
  | .exprMatch w, v => .exprMatch { w with attributes := v }
  | .exprWhile w, v => .exprWhile { w with attributes := v }
  | .exprLoop w, v => .exprLoop { w with attributes := v }
  | .exprFor w, v => .exprFor { w with attributes := v }
  | .exprLet w, v => .exprLet { w with attributes := v }
  | .exprIf w, v => .exprIf { w with attributes := v }
  | .exprSelect w, v => .exprSelect { w with attributes := v }
  | .exprLit _ l, v => .exprLit v l
  | .exprAssign _ l e r, v => .exprAssign v l e r
  | .exprBinary _ l t1 t2 r op, v => .exprBinary v l t1 t2 r op
  | .exprCall id _ c args, v => .exprCall id v c args
  | .macroCall w, v => .macroCall { w with attributes := v }
  | .exprFieldAccess _ t d f, v => .exprFieldAccess v t d f
  | .exprGroup _ o i c, v => .exprGroup v o i c
  | .exprUnary w, v => .exprUnary { w with attributes := v }
  | .exprIndex _ t o i c, v => .exprIndex v t o i c
  | .exprAwait _ t d aw, v => .exprAwait v t d aw
  | .exprTry _ i t, v => .exprTry v i t

/-- `ast::StringSource`: where the text of a label/identifier lives. -/
inductive StringSource where
  | text
  | synthetic (id : Nat)
deriving DecidableEq

/-- `ast::Label`: the label token plus its string source kind. -/
structure Label where
  token : Token
  kind : StringSource
deriving DecidableEq

/-- Modelled from the spec: runestick's `Source` (source text lookup) is
outside src/; slicing a span out of the source text yields the text or
nothing when the span cannot be sliced. -/
structure Source where
  source : Span → Option String

/-- Modelled from the spec: the `Storage` synthetic-string table is outside
src/; it maps opaque ids to interned strings, `none` for unregistered ids. -/
structure Storage where
  get_string : Nat → Option String

/-- A borrowed-or-owned string view (`std::borrow::Cow<str>`). -/
inductive Cow where
  | borrowed (s : String)
  | owned (s : String)
deriving DecidableEq

/-- `Cow::into_owned`. -/
def Cow.into_owned : Cow → String
  | .borrowed s => s
  | .owned s => s

/-- `Label::resolve` (label.rs): resolve the label to text, slicing the
source for textual labels (trimming the leading sigil) and consulting the
storage table for synthetic labels. -/
def Label.resolve (l : Label) (storage : Storage) (source : Source) :
    Except ParseError Cow :=
  let span := l.token.span
  match l.kind with
  | .text =>
    let span2 := l.token.span
    match source.source (span2.trim_start 1) with
    | some ident => .ok (.borrowed ident)
    | none => .error ⟨span2, .badSlice⟩
  | .synthetic id =>
    match storage.get_string id with
    | some ident => .ok (.owned ident)
    | none => .error ⟨span, .badSyntheticId "ident" id⟩

/-- `Label::resolve_owned` (label.rs): resolve then take ownership. -/
def Label.resolve_owned (l : Label) (storage : Storage) (source : Source) :
    Except ParseError String :=
  match l.resolve storage source with
  | .error e => .error e
  | .ok c => .ok c.into_owned

/-- The claim's composition, written from the spec's words: `resolve`
followed by `into_owned`. -/
def Label.resolveOwnedSpec (l : Label) (storage : Storage) (source : Source) :
    Except ParseError String :=
  (l.resolve storage source).map Cow.into_owned

/-- `EagerBrace`: may a bare brace after a path start an object literal here. -/
structure EagerBrace where
  val : Bool
deriving DecidableEq

/-- `EagerBinary`: should trailing binary operators be consumed here. -/
structure EagerBinary where
  val : Bool
deriving DecidableEq

/-- The parser state: the remaining token stream (the source's `Parser`
cursor; tokens are only consumed in order). -/
structure PState where
  tokens : List Token
deriving DecidableEq

/-- `Parser::is_eof`. -/
def PState.is_eof (s : PState) : Bool :=
  s.tokens.isEmpty

/-- `Parser::nth(k)`: the kind of the token `k` positions ahead, `eof` past
the end. -/
def PState.nth (s : PState) (k : Nat) : Kind :=
  match s.tokens.drop k with
  | [] => .eof
  | t :: _ => t.kind

/-- `Parser::token(0)`: the next token, an eof token past the end. -/
def PState.token0 (s : PState) : Token :=
  match s.tokens with
  | [] => ⟨⟨0, 0⟩, .eof⟩
  | t :: _ => t

/-- The result of a parsing operation: an error, or a value plus the state
after it. -/
abbrev Res (α : Type) := Except ParseError (α × PState)

/-- Sequencing of parsing operations: propagate the error, or feed the value
and the new state to the continuation (the `?` operator of the source). -/
def andThen {α β : Type} (x : Res α) (f : α → PState → Res β) : Res β :=
  match x with
  | .error e => .error e
  | .ok (a, s) => f a s

/-- `p.parse::<T![k]>()`: consume the next token, requiring the given kind. -/
def parseToken (k : Kind) (s : PState) : Res Token :=
  match s.tokens with
  | [] => .error ⟨⟨0, 0⟩, .tokenMismatch k .eof⟩
  | t :: rest =>
      if t.kind = k then .ok (t, ⟨rest⟩)
      else .error ⟨t.span, .tokenMismatch k t.kind⟩

/-- Modelled from the spec: `BinOp::advance` is outside src/; an operator
occupies one or two token positions, which it consumes and returns. -/
def BinOp.advance (op : BinOp) (s : PState) : Res (Token × Option Token) :=
  match s.tokens with
  | [] => .error ⟨⟨0, 0⟩, .tokenMismatch .eof .eof⟩
  | t :: rest =>
      if op.two then
        match rest with
        | [] => .error ⟨t.span, .tokenMismatch .eof .eof⟩
        | t2 :: rest2 => .ok ((t, some t2), ⟨rest2⟩)
      else .ok ((t, none), ⟨rest⟩)

/-- The external collaborators of the expression core: the attribute, path,
literal, label and construct sub-parsers, the argument-list parser, and the
binary operator table's peek.  Each is an arbitrary function of the parser
state, abstracting code outside expr.rs. -/
structure Ext where
  parseAttributes : PState → Res (List Attribute)
  parsePathOpt : PState → Res (Option Path)
  litPeekInExpr : List Token → Bool
  parseLabelOpt : PState → Res (Option (Label × Token))
  parseAsyncOpt : PState → Res (Option Token)
  parseClosure : List Attribute → Option Token → PState → Res ExtPayload
  parseSelect : List Attribute → PState → Res ExtPayload
  parseUnary : List Attribute → EagerBrace → PState → Res ExtPayload
  parseWhile : List Attribute → Option (Label × Token) → PState → Res ExtPayload
  parseLoop : List Attribute → Option (Label × Token) → PState → Res ExtPayload
  parseFor : List Attribute → Option (Label × Token) → PState → Res ExtPayload
  parseLet : List Attribute → PState → Res ExtPayload
  parseIf : List Attribute → PState → Res ExtPayload
  parseMatch : List Attribute → PState → Res ExtPayload
  parseBreak : List Attribute → PState → Res ExtPayload
  parseYield : List Attribute → PState → Res ExtPayload
  parseReturn : List Attribute → PState → Res ExtPayload
  parseBlock : PState → Res Block
  parseLitWithMeta : List Attribute → PState → Res (List Attribute × Lit)
  parseLitObject : Path → PState → Res (Span × Nat)
  parseLit : PState → Res Lit
  peekUnitLit : List Token → Bool
  parseTupleRest : Token → Expr → PState → Res (Span × Nat)
  parseMacroCall : List Attribute → Path → PState → Res ExtPayload
  parseArgs : PState → Res ArgList
  binopFromPeeker : List Token → Option BinOp

/-- The bundle of mutually recursive parsing operations of expr.rs, one fuel
level.  `parse_base` and friends return the expression together with the
leftover of the caller-supplied attribute list (the source passes it by
mutable reference). -/
structure Rec where
  parse_with : EagerBrace → EagerBinary → PState → Res Expr
  parse_base : List Attribute → EagerBrace → PState → Res (Expr × List Attribute)
  parse_chain : Expr → PState → Res Expr
  parse_binary : Expr → Nat → EagerBrace → PState → Res Expr
  parse_binary_inner : Expr → BinOp → Expr → EagerBrace → PState → Res Expr
  parse_with_meta_path :
    List Attribute → Path → EagerBrace → PState → Res (Expr × List Attribute)
  parse_open_paren : List Attribute → PState → Res (Expr × List Attribute)
  parse_with_meta :
    List Attribute → Option Path → PState → Res (Expr × List Attribute)

/-- The fuel-exhausted base of the recursion: every operation fails. -/
def botRec : Rec where
  parse_with := fun _ _ _ => .error ⟨⟨0, 0⟩, .outOfFuel⟩
  parse_base := fun _ _ _ => .error ⟨⟨0, 0⟩, .outOfFuel⟩
  parse_chain := fun _ _ => .error ⟨⟨0, 0⟩, .outOfFuel⟩
  parse_binary := fun _ _ _ _ => .error ⟨⟨0, 0⟩, .outOfFuel⟩
  parse_binary_inner := fun _ _ _ _ _ => .error ⟨⟨0, 0⟩, .outOfFuel⟩
  parse_with_meta_path := fun _ _ _ _ => .error ⟨⟨0, 0⟩, .outOfFuel⟩
  parse_open_paren := fun _ _ => .error ⟨⟨0, 0⟩, .outOfFuel⟩
  parse_with_meta := fun _ _ _ => .error ⟨⟨0, 0⟩, .outOfFuel⟩

/-- Finish `parse_base`'s dispatch: the leftover-label and leftover-async
checks at the end of `Expr::parse_base` (errors `UnsupportedLabel` and
`UnsupportedAsync`, spans covering the leftover modifier). -/
def finishBase (e : Expr) (labelLeft : Option (Label × Token))
    (asyncLeft : Option Token) (attrsLeft : List Attribute) (s : PState) :
    Res (Expr × List Attribute) :=
  match labelLeft with
  | some (l, c) => .error ⟨l.token.span.join c.span, .unsupportedLabel⟩
  | none =>
    match asyncLeft with
    | some a => .error ⟨a.span, .unsupportedAsync⟩
    | none => .ok ((e, attrsLeft), s)

/-- The classification match of the `.` branch of `Expr::parse_chain`: the
primary expression parsed after the dot either is a plain-identifier path
(named field access), an unattributed numeric literal (tuple-index field
access), or the parse fails with UnsupportedFieldAccess at its span. -/
def dotClassify (r : Rec) (e : Expr) (dot : Token) (next : Expr) (s : PState) :
    Res Expr :=
  match next with
  | .path p =>
      (match p.try_as_ident with
       | some name =>
           r.parse_chain
             (.exprFieldAccess e.take_attributes.1 e.take_attributes.2 dot
               (.identF name)) s
       | none => .error ⟨p.span, .unsupportedFieldAccess⟩)
  | .exprLit attrs (.number n) =>
      if attrs.isEmpty then
        r.parse_chain
          (.exprFieldAccess e.take_attributes.1 e.take_attributes.2 dot
            (.litNumberF n)) s
      else
        .error ⟨(Expr.exprLit attrs (.number n)).span, .unsupportedFieldAccess⟩
  | other => .error ⟨other.span, .unsupportedFieldAccess⟩

/-- One step of the recursive-descent core of expr.rs: each operation is the
direct translation of the corresponding source function, with `r` standing
for the recursive calls at one fuel level below. -/
def mkRec (ext : Ext) (r : Rec) : Rec where
  parse_with := fun eager_brace eager_binary s =>
    andThen (ext.parseAttributes s) fun attributes s =>
    andThen (r.parse_base attributes eager_brace s) fun (e, attributes) s =>
    andThen (r.parse_chain e s) fun e s =>
    andThen
      (if eager_binary.val then r.parse_binary e 0 eager_brace s
       else .ok (e, s)) fun e s =>
    match optionSpan attributes with
    | some span => .error ⟨span, .attributesNotSupported⟩
    | none => .ok (e, s)
  parse_base := fun attributes eager_brace s =>
    andThen (ext.parsePathOpt s) fun pathOpt s =>
    match pathOpt with
    | some path => r.parse_with_meta_path attributes path eager_brace s
    | none =>
      if ext.litPeekInExpr s.tokens then
        andThen (ext.parseLitWithMeta attributes s) fun (litAttrs, lit) s =>
        .ok ((.exprLit litAttrs lit, []), s)
      else
        andThen (ext.parseLabelOpt s) fun label s =>
        andThen (ext.parseAsyncOpt s) fun asyncToken s =>
        match s.nth 0 with
        | .pipePipe | .pipe =>
            andThen (ext.parseClosure attributes asyncToken s) fun w s =>
            finishBase (.exprClosure w) label none [] s
        | .selectKw =>
            andThen (ext.parseSelect attributes s) fun w s =>
            finishBase (.exprSelect w) label asyncToken [] s
        | .bang | .minus | .amp | .star =>
            andThen (ext.parseUnary attributes eager_brace s) fun w s =>
            finishBase (.exprUnary w) label asyncToken [] s
        | .whileKw =>
            andThen (ext.parseWhile attributes label s) fun w s =>
            finishBase (.exprWhile w) none asyncToken [] s
        | .loopKw =>
            andThen (ext.parseLoop attributes label s) fun w s =>
            finishBase (.exprLoop w) none asyncToken [] s
        | .forKw =>
            andThen (ext.parseFor attributes label s) fun w s =>
            finishBase (.exprFor w) none asyncToken [] s
        | .letKw =>
            andThen (ext.parseLet attributes s) fun w s =>
            finishBase (.exprLet w) label asyncToken [] s
        | .ifKw =>
            andThen (ext.parseIf attributes s) fun w s =>
            finishBase (.exprIf w) label asyncToken [] s
        | .matchKw =>
            andThen (ext.parseMatch attributes s) fun w s =>
            finishBase (.exprMatch w) label asyncToken [] s
        | .openParen =>
            andThen (r.parse_open_paren attributes s) fun (e, attrsLeft) s =>
            finishBase e label asyncToken attrsLeft s
        | .openBrace =>
            andThen (ext.parseBlock s) fun blk s =>
            finishBase (.exprBlock attributes asyncToken none none blk)
              label none [] s
        | .breakKw =>
            andThen (ext.parseBreak attributes s) fun w s =>
            finishBase (.exprBreak w) label asyncToken [] s
        | .yieldKw =>
            andThen (ext.parseYield attributes s) fun w s =>
            finishBase (.exprYield w) label asyncToken [] s
        | .returnKw =>
            andThen (ext.parseReturn attributes s) fun w s =>
            finishBase (.exprReturn w) label asyncToken [] s
        | _ => .error ⟨(s.token0).span, .expected (s.token0).kind "expression"⟩
  parse_chain := fun e s =>
    if s.is_eof then .ok (e, s)
    else
      let is_chainable := e.is_chainable
      match s.nth 0 with
      | .openBracket =>
          if is_chainable then
            let ta := e.take_attributes
            andThen (parseToken .openBracket s) fun openTok s =>
            andThen (r.parse_with ⟨true⟩ ⟨true⟩ s) fun index s =>
            andThen (parseToken .closeBracket s) fun closeTok s =>
            r.parse_chain (.exprIndex ta.1 ta.2 openTok index closeTok) s
          else .ok (e, s)
      | .openParen =>
          if is_chainable then
            andThen (ext.parseArgs s) fun args s =>
            let ta := e.take_attributes
            r.parse_chain (.exprCall 0 ta.1 ta.2 args) s
          else .ok (e, s)
      | .question =>
          let ta := e.take_attributes
          andThen (parseToken .question s) fun tryToken s =>
          r.parse_chain (.exprTry ta.1 ta.2 tryToken) s
      | .eqK =>
          andThen (parseToken .eqK s) fun eqTok s =>
          andThen (r.parse_with ⟨true⟩ ⟨true⟩ s) fun rhs s =>
          let ta := e.take_attributes
          r.parse_chain (.exprAssign ta.1 ta.2 eqTok rhs) s
      | .dot =>
          andThen (parseToken .dot s) fun dot s =>
          if s.nth 0 = .awaitKw then
            let ta := e.take_attributes
            andThen (parseToken .awaitKw s) fun awaitToken s =>
            r.parse_chain (.exprAwait ta.1 ta.2 dot awaitToken) s
          else
            andThen (r.parse_base [] ⟨false⟩ s) fun (next, _) s =>
            dotClassify r e dot next s
      | _ => .ok (e, s)
  parse_binary := fun lhs min_precedence eager_brace s =>
    match ext.binopFromPeeker s.tokens with
    | some op =>
        if min_precedence ≤ op.prec then
          andThen (op.advance s) fun (t1, t2) s =>
          andThen (r.parse_base [] eager_brace s) fun (rhs, _) s =>
          andThen (r.parse_chain rhs s) fun rhs s =>
          andThen (r.parse_binary_inner lhs op rhs eager_brace s) fun rhs s =>
          r.parse_binary (.exprBinary [] lhs t1 t2 rhs op) min_precedence
            eager_brace s
        else .ok (lhs, s)
    | none => .ok (lhs, s)
  parse_binary_inner := fun lhs op rhs eager_brace s =>
    match ext.binopFromPeeker s.tokens with
    | some lh =>
        if op.prec < lh.prec then
          andThen (r.parse_binary rhs lh.prec eager_brace s) fun rhs s =>
          r.parse_binary_inner lhs op rhs eager_brace s
        else if lh.prec = op.prec ∧ op.assoc = false then
          .error ⟨lhs.span.join rhs.span, .precedenceGroupRequired⟩
        else .ok (rhs, s)
    | none => .ok (rhs, s)
  parse_with_meta_path := fun attributes path eager_brace s =>
    if eager_brace.val ∧ s.nth 0 = .openBrace then
      andThen (ext.parseLitObject path s) fun (sp, d) s =>
      .ok ((.exprLit attributes (.object sp d), []), s)
    else if s.nth 0 = .bang then
      andThen (ext.parseMacroCall attributes path s) fun w s =>
      .ok ((.macroCall w, []), s)
    else .ok ((.path path, attributes), s)
  parse_open_paren := fun attributes s =>
    if ext.peekUnitLit s.tokens then
      andThen (ext.parseLit s) fun lit s =>
      .ok ((.exprLit attributes lit, []), s)
    else
      andThen (parseToken .openParen s) fun openTok s =>
      andThen (r.parse_with ⟨true⟩ ⟨true⟩ s) fun e s =>
      if s.nth 0 = .closeParen then
        andThen (parseToken .closeParen s) fun closeTok s =>
        .ok ((.exprGroup attributes openTok e closeTok, []), s)
      else
        andThen (ext.parseTupleRest openTok e s) fun (sp, d) s =>
        .ok ((.exprLit attributes (.tuple sp d), []), s)
  parse_with_meta := fun attributes pathOpt s =>
    andThen
      (match pathOpt with
       | some path => r.parse_with_meta_path attributes path ⟨true⟩ s
       | none => r.parse_base attributes ⟨true⟩ s)
      fun (lhs, attributes) s =>
    andThen (r.parse_chain lhs s) fun lhs s =>
    andThen (r.parse_binary lhs 0 ⟨true⟩ s) fun e s =>
    .ok ((e, attributes), s)

/-- The fuel-indexed tower of the mutually recursive parser: fuel 0 always
fails, fuel n+1 performs one step with recursive calls at fuel n. -/
def parseRec (ext : Ext) : Nat → Rec
  | 0 => botRec
  | n + 1 => mkRec ext (parseRec ext n)

/-- `Expr::parse_with`: full, configurable parsing of an expression. -/
def Expr.parse_with (fuel : Nat) (ext : Ext) (eager_brace : EagerBrace)
    (eager_binary : EagerBinary) (s : PState) : Res Expr :=
  (parseRec ext fuel).parse_with eager_brace eager_binary s

/-- `Expr::parse_without_eager_brace`: the condition-position entry point. -/
def Expr.parse_without_eager_brace (fuel : Nat) (ext : Ext) (s : PState) :
    Res Expr :=
  Expr.parse_with fuel ext ⟨false⟩ ⟨true⟩ s

/-- The `Parse` impl for `Expr`: the default entry point. -/
def Expr.parse (fuel : Nat) (ext : Ext) (s : PState) : Res Expr :=
  Expr.parse_with fuel ext ⟨true⟩ ⟨true⟩ s

/-- `Expr::parse_base` at a given fuel. -/
def Expr.parse_base (fuel : Nat) (ext : Ext) (attributes : List Attribute)
    (eager_brace : EagerBrace) (s : PState) : Res (Expr × List Attribute) :=
  (parseRec ext fuel).parse_base attributes eager_brace s

/-- `Expr::parse_chain` at a given fuel. -/
def Expr.parse_chain (fuel : Nat) (ext : Ext) (e : Expr) (s : PState) :
    Res Expr :=
  (parseRec ext fuel).parse_chain e s

/-- `Expr::parse_binary` at a given fuel. -/
def Expr.parse_binary (fuel : Nat) (ext : Ext) (lhs : Expr)
    (min_precedence : Nat) (eager_brace : EagerBrace) (s : PState) : Res Expr :=
  (parseRec ext fuel).parse_binary lhs min_precedence eager_brace s

/-- A concrete storage table for witnesses: id 3 is registered as "gen". -/
def testStorage : Storage :=
  ⟨fun id => if id = 3 then some "gen" else none⟩

/-- A concrete source for witnesses: the span 1..4 slices to "foo". -/
def testSource : Source :=
  ⟨fun sp => if sp = ⟨1, 4⟩ then some "foo" else none⟩

/-- A concrete textual label over the span 0..4. -/
def testLabelText : Label :=
  ⟨⟨⟨0, 4⟩, .labelK 0⟩, .text⟩

/-- An error produced by a concrete external sub-parser stub. -/
def extFail (k : Nat) : ParseError :=
  ⟨⟨0, 0⟩, .extError k⟩

/-- A concrete instance of the external collaborators, for witnesses and
counterexamples: identifiers parse as single-ident paths, numbers as number
literals, `+` is an associative operator of precedence 10 and `<` a
non-associative operator of precedence 5, a token of kind `other 99` parses
as one attribute, and everything else fails. -/
def testExt : Ext where
  parseAttributes := fun s =>
    match s.tokens with
    | ⟨sp, .other 99⟩ :: rest => .ok ([⟨sp, 7⟩], ⟨rest⟩)
    | _ => .ok ([], s)
  parsePathOpt := fun s =>
    match s.tokens with
    | ⟨sp, .ident n⟩ :: rest => .ok (some ⟨sp, some ⟨sp, n⟩, 0⟩, ⟨rest⟩)
    | _ => .ok (none, s)
  litPeekInExpr := fun toks =>
    match toks with
    | ⟨_, .litNumber _⟩ :: _ => true
    | _ => false
  parseLabelOpt := fun s => .ok (none, s)
  parseAsyncOpt := fun s => .ok (none, s)
  parseClosure := fun _ _ _ => .error (extFail 1)
  parseSelect := fun _ _ => .error (extFail 2)
  parseUnary := fun _ _ _ => .error (extFail 3)
  parseWhile := fun _ _ _ => .error (extFail 4)
  parseLoop := fun _ _ _ => .error (extFail 5)
  parseFor := fun _ _ _ => .error (extFail 6)
  parseLet := fun _ _ => .error (extFail 7)
  parseIf := fun _ _ => .error (extFail 8)
  parseMatch := fun _ _ => .error (extFail 9)
  parseBreak := fun _ _ => .error (extFail 10)
  parseYield := fun _ _ => .error (extFail 11)
  parseReturn := fun _ _ => .error (extFail 12)
  parseBlock := fun _ => .error (extFail 13)
  parseLitWithMeta := fun attrs s =>
    match s.tokens with
    | ⟨sp, .litNumber v⟩ :: rest => .ok ((attrs, .number ⟨sp, v⟩), ⟨rest⟩)
    | _ => .error (extFail 14)
  parseLitObject := fun _ _ => .error (extFail 15)
  parseLit := fun _ => .error (extFail 16)
  peekUnitLit := fun _ => false
  parseTupleRest := fun _ _ _ => .error (extFail 17)
  parseMacroCall := fun _ _ _ => .error (extFail 18)
  parseArgs := fun s =>
    match s.tokens with
    | ⟨sp1, .openParen⟩ :: ⟨sp2, .closeParen⟩ :: rest =>
        .ok (⟨sp1.join sp2, 0⟩, ⟨rest⟩)
    | _ => .error (extFail 19)
  binopFromPeeker := fun toks =>
    match toks with
    | ⟨_, .plus⟩ :: _ => some ⟨10, true, false, 1⟩
    | ⟨_, .lt⟩ :: _ => some ⟨5, false, false, 2⟩
    | _ => none

/-- A concrete identifier token "a" over span 0..1. -/
def testATok : Token := ⟨⟨0, 1⟩, .ident 1⟩

/-- A concrete identifier token "b" over span 4..5. -/
def testBTok : Token := ⟨⟨4, 5⟩, .ident 2⟩

/-- A concrete identifier token "c" over span 8..9. -/
def testCTok : Token := ⟨⟨8, 9⟩, .ident 3⟩

/-- A first `<` token over span 2..3. -/
def testLt1 : Token := ⟨⟨2, 3⟩, .lt⟩

/-- A second `<` token over span 6..7. -/
def testLt2 : Token := ⟨⟨6, 7⟩, .lt⟩

/-- The path parsed from `testATok`. -/
def testPathA : Path := ⟨⟨0, 1⟩, some ⟨⟨0, 1⟩, 1⟩, 0⟩

/-- The path parsed from `testBTok`. -/
def testPathB : Path := ⟨⟨4, 5⟩, some ⟨⟨4, 5⟩, 2⟩, 0⟩

/-- A while-expression payload with no attributes over span 0..9. -/
def testW : ExtPayload := ⟨[], ⟨0, 9⟩, 0⟩

/-- A `?` token over span 10..11. -/
def testQTok : Token := ⟨⟨10, 11⟩, .question⟩

/-- An `[` token over span 1..2. -/
def testLbTok : Token := ⟨⟨1, 2⟩, .openBracket⟩

/-- A number token `42` over span 3..4. -/
def testNumTok : Token := ⟨⟨3, 4⟩, .litNumber 42⟩

/-- A `]` token over span 5..6. -/
def testRbTok : Token := ⟨⟨5, 6⟩, .closeBracket⟩

/-- The field-access classification applied by the `.` branch of parse_chain
to the primary expression parsed after the dot: a plain-identifier path gives
a named field, an unattributed numeric literal gives a tuple-index field,
anything else is unsupported. -/
def fieldAccessClass : Expr → Option ExprField
  | .path p => p.try_as_ident.map .identF
  | .exprLit [] (.number nl) => some (.litNumberF nl)
  | _ => none

/-- A `.` token over span 1..2. -/
def testDotTok : Token := ⟨⟨1, 2⟩, .dot⟩

/-- A `+` token over span 2..3. -/
def testPlusTok : Token := ⟨⟨2, 3⟩, .plus⟩

/-- An attribute token over span 0..1 (kind `other 99`, which the concrete
attribute sub-parser consumes as one attribute). -/
def testAttrTok : Token := ⟨⟨0, 1⟩, .other 99⟩

/-- An identifier token over span 2..3. -/
def testIdent5Tok : Token := ⟨⟨2, 3⟩, .ident 5⟩

/-- The path parsed from `testIdent5Tok`. -/
def testPathC : Path := ⟨⟨2, 3⟩, some ⟨⟨2, 3⟩, 5⟩, 0⟩

/-- C8: needs_semi is a pure function of the expression's variant tag: it
returns false exactly when the node is a while, loop, for, if, match, block,
or select variant, and true for every other variant (the model is a pure
function, so no mutation is possible). -/
theorem needs_semi_variant_table :
    ∀ e : Expr, e.needs_semi = false ↔
      ((∃ w, e = .exprWhile w) ∨ (∃ w, e = .exprLoop w) ∨
       (∃ w, e = .exprFor w) ∨ (∃ w, e = .exprIf w) ∨
       (∃ w, e = .exprMatch w) ∨
       (∃ a asy c m b, e = .exprBlock a asy c m b) ∨
       (∃ w, e = .exprSelect w)) := by
  intro e
  cases e <;> simp [Expr.needs_semi]

/-- C6: take_attributes returns exactly the node's attribute list and changes
only the attribute-list field — the updated node is the original with its
attribute list replaced by the empty list — and a subsequent attributes read
on the updated node returns the empty list. -/
theorem take_attributes_frame :
    ∀ e : Expr,
      e.take_attributes = (e.attributes, e.setAttributes []) ∧
      (e.take_attributes).2.attributes = [] := by
  intro e
  cases e <;>
    simp [Expr.take_attributes, Expr.attributes, Expr.setAttributes,
      Item.take_attributes]

/-- C9: Label resolution: a textual label resolves to a borrowed slice of the
source at the sigil-trimmed span and fails with BadSlice exactly when that
span cannot be sliced; a synthetic label resolves to an owned string from the
storage table and fails with BadSyntheticId exactly when the id is
unregistered; no other failure is possible. -/
theorem label_resolve_characterization :
    ∀ (l : Label) (st : Storage) (src : Source),
      (l.kind = .text →
        (∀ t, src.source (l.token.span.trim_start 1) = some t →
          l.resolve st src = .ok (.borrowed t)) ∧
        (l.resolve st src = .error ⟨l.token.span, .badSlice⟩ ↔
          src.source (l.token.span.trim_start 1) = none)) ∧
      (∀ id, l.kind = .synthetic id →
        (∀ t, st.get_string id = some t → l.resolve st src = .ok (.owned t)) ∧
        (l.resolve st src = .error ⟨l.token.span, .badSyntheticId "ident" id⟩ ↔
          st.get_string id = none)) ∧
      (∀ err, l.resolve st src = .error err →
        (l.kind = .text ∧ err = ⟨l.token.span, .badSlice⟩) ∨
        (∃ id, l.kind = .synthetic id ∧
          err = ⟨l.token.span, .badSyntheticId "ident" id⟩)) := by
  intro l st src
  obtain ⟨tok, k⟩ := l
  cases k with
  | text =>
      refine ⟨?_, ?_, ?_⟩
      · intro _
        refine ⟨fun t ht => ?_, ?_⟩
        · simp [Label.resolve, ht]
        · cases hsrc : src.source (tok.span.trim_start 1) <;>
            simp [Label.resolve, hsrc]
      · intro id h
        simp at h
      · intro err herr
        cases hsrc : src.source (tok.span.trim_start 1) <;>
          simp [Label.resolve, hsrc] at herr
        first
        | exact Or.inl ⟨rfl, herr⟩
        | exact Or.inl ⟨rfl, herr.symm⟩
  | synthetic id0 =>
      refine ⟨?_, ?_, ?_⟩
      · intro h
        simp at h
      · intro id h
        simp at h
        subst h
        refine ⟨fun t ht => ?_, ?_⟩
        · simp [Label.resolve, ht]
        · cases hst : st.get_string id0 <;> simp [Label.resolve, hst]
      · intro err herr
        cases hst : st.get_string id0 <;> simp [Label.resolve, hst] at herr
        first
        | exact Or.inr ⟨id0, rfl, herr⟩
        | exact Or.inr ⟨id0, rfl, herr.symm⟩

/-- C10: resolve_owned is resolve followed by into_owned: it returns Ok(s)
exactly when resolve returns Ok(c) with c.into_owned = s, and returns the
same error whenever resolve fails. -/
theorem resolve_owned_refines_resolve :
    ∀ (l : Label) (st : Storage) (src : Source),
      l.resolve_owned st src = l.resolveOwnedSpec st src ∧
      (∀ s, l.resolve_owned st src = .ok s ↔
        ∃ c, l.resolve st src = .ok c ∧ c.into_owned = s) ∧
      (∀ e, l.resolve_owned st src = .error e ↔ l.resolve st src = .error e) := by
  intro l st src
  cases h : l.resolve st src <;>
    simp [Label.resolve_owned, Label.resolveOwnedSpec, h, Except.map]

/-- C9 witness: the characterization applied at a concrete textual label,
storage and source, where slicing succeeds with "foo". -/
theorem label_resolve_characterization_witness :
    Label.resolve testLabelText testStorage testSource = .ok (.borrowed "foo") :=
  ((label_resolve_characterization testLabelText testStorage testSource).1
    rfl).1 "foo" rfl

/-- Sequencing after a success feeds the continuation. -/
@[simp] theorem andThen_okStep {α β : Type} (a : α) (s : PState)
    (f : α → PState → Res β) : andThen (.ok (a, s)) f = f a s := rfl

/-- Sequencing after an error propagates the error. -/
@[simp] theorem andThen_errStep {α β : Type} (e : ParseError)
    (f : α → PState → Res β) : andThen (.error e) f = .error e := rfl

/-- One unfolding of the fuel tower. -/
theorem parseRec_succ (ext : Ext) (n : Nat) :
    parseRec ext (n + 1) = mkRec ext (parseRec ext n) := rfl

/-- The chain loop stops immediately at end of stream. -/
theorem parseRec_chain_eof (ext : Ext) (n : Nat) (x : Expr) (s : PState)
    (h : s.is_eof = true) : (parseRec ext (n + 1)).parse_chain x s = .ok (x, s) := by
  simp [parseRec_succ, mkRec, h]

/-- C3: in parse_binary, once an operator and its chained right-hand side
have been parsed, a following operator of equal precedence while the current
operator is not flagged associative fails with PrecedenceGroupRequired,
spanning the join of the accumulated left-hand side's span and the
right-hand side's span. -/
theorem parse_binary_precedence_group_required :
    ∀ (ext : Ext) (n : Nat) (s s1 s2 s3 : PState) (lhs rhs0 rhs : Expr)
      (attrsLeft : List Attribute) (op lh : BinOp) (t1 : Token)
      (t2 : Option Token) (min_precedence : Nat) (eager_brace : EagerBrace),
      ext.binopFromPeeker s.tokens = some op →
      min_precedence ≤ op.prec →
      op.advance s = .ok ((t1, t2), s1) →
      Expr.parse_base (n + 1) ext [] eager_brace s1 = .ok ((rhs0, attrsLeft), s2) →
      Expr.parse_chain (n + 1) ext rhs0 s2 = .ok (rhs, s3) →
      ext.binopFromPeeker s3.tokens = some lh →
      lh.prec = op.prec →
      op.assoc = false →
      Expr.parse_binary (n + 2) ext lhs min_precedence eager_brace s =
        .error ⟨lhs.span.join rhs.span, .precedenceGroupRequired⟩ := by
  intro ext n s s1 s2 s3 lhs rhs0 rhs attrsLeft op lh t1 t2 min_precedence eb
    h1 h2 h3 h4 h5 h6 h7 h8
  show (mkRec ext (parseRec ext (n + 1))).parse_binary lhs min_precedence eb s
      = _
  rw [show (mkRec ext (parseRec ext (n + 1))).parse_binary
      = fun lhs min_precedence eager_brace s =>
        match ext.binopFromPeeker s.tokens with
        | some op =>
            if min_precedence ≤ op.prec then
              andThen (op.advance s) fun (t1, t2) s =>
              andThen ((parseRec ext (n + 1)).parse_base [] eager_brace s)
                fun (rhs, _) s =>
              andThen ((parseRec ext (n + 1)).parse_chain rhs s) fun rhs s =>
              andThen ((parseRec ext (n + 1)).parse_binary_inner lhs op rhs
                eager_brace s) fun rhs s =>
              (parseRec ext (n + 1)).parse_binary
                (.exprBinary [] lhs t1 t2 rhs op) min_precedence eager_brace s
            else .ok (lhs, s)
        | none => .ok (lhs, s) from rfl]
  rw [show Expr.parse_base (n + 1) ext [] eb s1
      = (parseRec ext (n + 1)).parse_base [] eb s1 from rfl] at h4
  rw [show Expr.parse_chain (n + 1) ext rhs0 s2
      = (parseRec ext (n + 1)).parse_chain rhs0 s2 from rfl] at h5
  simp only [h1, if_pos h2, h3, andThen_okStep, h4, h5]
  rw [show (parseRec ext (n + 1)).parse_binary_inner
      = (mkRec ext (parseRec ext n)).parse_binary_inner from rfl]
  simp only [mkRec, h6, h7, h8, lt_irrefl, if_false, and_self, if_true,
    andThen_errStep, ite_false, ite_true]

/-- C3 witness: `a < b < c` with the non-associative `<` of precedence 5
fails with PrecedenceGroupRequired spanning `a`..`b` (0..5). -/
theorem parse_binary_precedence_group_required_witness :
    Expr.parse_binary 4 testExt (.path testPathA) 0 ⟨true⟩
      ⟨[testLt1, testBTok, testLt2, testCTok]⟩ =
      .error ⟨⟨0, 5⟩, .precedenceGroupRequired⟩ :=
  parse_binary_precedence_group_required testExt 2
    ⟨[testLt1, testBTok, testLt2, testCTok]⟩ ⟨[testBTok, testLt2, testCTok]⟩
    ⟨[testLt2, testCTok]⟩ ⟨[testLt2, testCTok]⟩ (.path testPathA)
    (.path testPathB) (.path testPathB) [] ⟨5, false, false, 2⟩
    ⟨5, false, false, 2⟩ testLt1 none 0 ⟨true⟩ rfl (Nat.zero_le _) rfl rfl rfl
    rfl rfl rfl

/-- C1 (amended): in parse_chain, index and call extensions are gated by
is_chainable (a non-chainable node is returned unchanged when `[` or `(`
follows), while try, assignment, await and named-field extensions wrap the
current node regardless of its chainability. -/
theorem chain_extension_gating :
    ∀ (ext : Ext) (n : Nat) (e : Expr),
      (∀ s : PState, e.is_chainable = false →
        (s.nth 0 = .openBracket ∨ s.nth 0 = .openParen) →
        Expr.parse_chain (n + 1) ext e s = .ok (e, s)) ∧
      (∀ q : Token, q.kind = .question →
        Expr.parse_chain (n + 2) ext e ⟨[q]⟩ =
          .ok (.exprTry e.take_attributes.1 e.take_attributes.2 q, ⟨[]⟩)) ∧
      (∀ (eqTok : Token) (rest : List Token) (rhs : Expr) (s2 : PState),
        eqTok.kind = .eqK →
        Expr.parse_with (n + 1) ext ⟨true⟩ ⟨true⟩ ⟨rest⟩ = .ok (rhs, s2) →
        s2.is_eof = true →
        Expr.parse_chain (n + 2) ext e ⟨eqTok :: rest⟩ =
          .ok (.exprAssign e.take_attributes.1 e.take_attributes.2 eqTok rhs,
            s2)) ∧
      (∀ d a : Token, d.kind = .dot → a.kind = .awaitKw →
        Expr.parse_chain (n + 2) ext e ⟨[d, a]⟩ =
          .ok (.exprAwait e.take_attributes.1 e.take_attributes.2 d a, ⟨[]⟩)) ∧
      (∀ (d : Token) (rest : List Token) (p : Path) (nm : Ident)
         (attrsX : List Attribute) (s2 : PState),
        d.kind = .dot →
        (⟨rest⟩ : PState).nth 0 ≠ .awaitKw →
        Expr.parse_base (n + 1) ext [] ⟨false⟩ ⟨rest⟩ =
          .ok ((.path p, attrsX), s2) →
        p.try_as_ident = some nm →
        s2.is_eof = true →
        Expr.parse_chain (n + 2) ext e ⟨d :: rest⟩ =
          .ok (.exprFieldAccess e.take_attributes.1 e.take_attributes.2 d
            (.identF nm), s2)) := by
  intro ext n e
  refine ⟨?_, ?_, ?_, ?_, ?_⟩
  · intro s hch hk
    obtain ⟨toks⟩ := s
    cases toks with
    | nil => rcases hk with hk | hk <;> simp [PState.nth] at hk
    | cons t rest =>
        have ht : t.kind = .openBracket ∨ t.kind = .openParen := by
          simpa [PState.nth] using hk
        show (mkRec ext (parseRec ext n)).parse_chain e ⟨t :: rest⟩ = _
        rcases ht with ht | ht <;>
          simp [mkRec, PState.is_eof, PState.nth, ht, hch]
  · intro q hq
    show (mkRec ext (parseRec ext (n + 1))).parse_chain e ⟨[q]⟩ = _
    simp [mkRec, PState.is_eof, PState.nth, hq, parseToken, parseRec_chain_eof]
  · intro eqTok rest rhs s2 hk hw he
    rw [show Expr.parse_with (n + 1) ext ⟨true⟩ ⟨true⟩ ⟨rest⟩
        = (parseRec ext (n + 1)).parse_with ⟨true⟩ ⟨true⟩ ⟨rest⟩ from rfl] at hw
    show (mkRec ext (parseRec ext (n + 1))).parse_chain e ⟨eqTok :: rest⟩ = _
    simp [mkRec, PState.is_eof, PState.nth, hk, parseToken, hw]
    exact parseRec_chain_eof ext n _ s2 he
  · intro d a hd ha
    show (mkRec ext (parseRec ext (n + 1))).parse_chain e ⟨[d, a]⟩ = _
    simp [mkRec, PState.is_eof, PState.nth, hd, ha, parseToken,
      parseRec_chain_eof]
  · intro d rest p nm attrsX s2 hd hna hbase hid he
    rw [show Expr.parse_base (n + 1) ext [] ⟨false⟩ ⟨rest⟩
        = (parseRec ext (n + 1)).parse_base [] ⟨false⟩ ⟨rest⟩ from rfl] at hbase
    simp only [PState.nth, List.drop_zero] at hna
    simp only [Path.try_as_ident] at hid
    show (mkRec ext (parseRec ext (n + 1))).parse_chain e ⟨d :: rest⟩ = _
    simp [mkRec, PState.is_eof, PState.nth, hd, parseToken, hna, hbase,
      dotClassify, Path.try_as_ident, hid]
    exact parseRec_chain_eof ext n _ s2 he

/-- C1 counterexample: a while expression, which is not chainable, is the
direct target of a try extension: parse_chain wraps `while .. {}` followed by
`?` into a try-expression. -/
theorem chain_wraps_nonchainable_cx :
    Expr.parse_chain 3 testExt (.exprWhile testW) ⟨[testQTok]⟩ =
      .ok (.exprTry [] (.exprWhile testW) testQTok, ⟨[]⟩) ∧
    Expr.is_chainable (.exprWhile testW) = false :=
  ⟨rfl, rfl⟩

/-- C1 witness: the gating theorem applied at a concrete non-chainable while
expression with `[` following: the bracket is not consumed. -/
theorem chain_extension_gating_witness :
    Expr.parse_chain 2 testExt (.exprWhile testW) ⟨[testLbTok]⟩ =
      .ok (.exprWhile testW, ⟨[testLbTok]⟩) :=
  (chain_extension_gating testExt 1 (.exprWhile testW)).1 ⟨[testLbTok]⟩ rfl
    (Or.inl rfl)

/-- C4: in parse_chain, a following `[` is consumed as an index operation and
a following `(` as a call exactly when the current expression is chainable: a
non-chainable node (in particular a for loop) is returned unchanged with the
bracket or parenthesis unconsumed, and a chainable node is wrapped as an
index or call. -/
theorem chain_index_call_chainability :
    ∀ (ext : Ext) (n : Nat) (e : Expr) (s : PState),
      (e.is_chainable = false →
        (s.nth 0 = .openBracket ∨ s.nth 0 = .openParen) →
        Expr.parse_chain (n + 1) ext e s = .ok (e, s)) ∧
      (∀ (lb : Token) (rest : List Token) (index : Expr) (cb : Token)
         (s2 s3 : PState),
        e.is_chainable = true → lb.kind = .openBracket → s = ⟨lb :: rest⟩ →
        Expr.parse_with (n + 1) ext ⟨true⟩ ⟨true⟩ ⟨rest⟩ = .ok (index, s2) →
        parseToken .closeBracket s2 = .ok (cb, s3) →
        s3.is_eof = true →
        Expr.parse_chain (n + 2) ext e s =
          .ok (.exprIndex e.take_attributes.1 e.take_attributes.2 lb index cb,
            s3)) ∧
      (∀ (args : ArgList) (s2 : PState),
        e.is_chainable = true → s.nth 0 = .openParen →
        ext.parseArgs s = .ok (args, s2) → s2.is_eof = true →
        Expr.parse_chain (n + 2) ext e s =
          .ok (.exprCall 0 e.take_attributes.1 e.take_attributes.2 args, s2)) ∧
      (∀ w : ExtPayload, s.nth 0 = .openBracket →
        Expr.parse_chain (n + 1) ext (.exprFor w) s = .ok (.exprFor w, s)) := by
  intro ext n e s
  refine ⟨?_, ?_, ?_, ?_⟩
  · intro hch hk
    obtain ⟨toks⟩ := s
    cases toks with
    | nil => rcases hk with hk | hk <;> simp [PState.nth] at hk
    | cons t rest =>
        have ht : t.kind = .openBracket ∨ t.kind = .openParen := by
          simpa [PState.nth] using hk
        show (mkRec ext (parseRec ext n)).parse_chain e ⟨t :: rest⟩ = _
        rcases ht with ht | ht <;>
          simp [mkRec, PState.is_eof, PState.nth, ht, hch]
  · intro lb rest index cb s2 s3 hch hlb hs hw hcb he
    subst hs
    rw [show Expr.parse_with (n + 1) ext ⟨true⟩ ⟨true⟩ ⟨rest⟩
        = (parseRec ext (n + 1)).parse_with ⟨true⟩ ⟨true⟩ ⟨rest⟩ from rfl] at hw
    have hopen : parseToken .openBracket ⟨lb :: rest⟩ = .ok (lb, ⟨rest⟩) := by
      simp [parseToken, hlb]
    show (mkRec ext (parseRec ext (n + 1))).parse_chain e ⟨lb :: rest⟩ = _
    simp [mkRec, PState.is_eof, PState.nth, hlb, hch, hopen, hw, hcb]
    exact parseRec_chain_eof ext n _ s3 he
  · intro args s2 hch hk hargs he
    obtain ⟨toks⟩ := s
    cases toks with
    | nil => simp [PState.nth] at hk
    | cons t rest =>
        have ht : t.kind = .openParen := by simpa [PState.nth] using hk
        show (mkRec ext (parseRec ext (n + 1))).parse_chain e ⟨t :: rest⟩ = _
        simp [mkRec, PState.is_eof, PState.nth, ht, hch, hargs]
        exact parseRec_chain_eof ext n _ s2 he
  · intro w hk
    obtain ⟨toks⟩ := s
    cases toks with
    | nil => simp [PState.nth] at hk
    | cons t rest =>
        have ht : t.kind = .openBracket := by simpa [PState.nth] using hk
        show (mkRec ext (parseRec ext n)).parse_chain (.exprFor w) ⟨t :: rest⟩
            = _
        simp [mkRec, PState.is_eof, PState.nth, ht, Expr.is_chainable]

/-- C4 witness: the chainability theorem applied at `a [ 42 ]`: the path `a`
is chainable and is wrapped as an index expression. -/
theorem chain_index_call_chainability_witness :
    Expr.parse_chain 5 testExt (.path testPathA)
      ⟨[testLbTok, testNumTok, testRbTok]⟩ =
      .ok (.exprIndex [] (.path testPathA) testLbTok
        (.exprLit [] (.number ⟨⟨3, 4⟩, 42⟩)) testRbTok, ⟨[]⟩) :=
  (chain_index_call_chainability testExt 3 (.path testPathA)
      ⟨[testLbTok, testNumTok, testRbTok]⟩).2.1 testLbTok
    [testNumTok, testRbTok] (.exprLit [] (.number ⟨⟨3, 4⟩, 42⟩)) testRbTok
    ⟨[testRbTok]⟩ ⟨[]⟩ rfl rfl rfl rfl rfl rfl

/-- One unfolding of the non-await `.` branch of parse_chain: after the dot
is consumed and the following primary expression is parsed, the result is
classified by the source's match on its shape. -/
theorem parse_chain_dot_step (ext : Ext) (n : Nat) (e : Expr) (d : Token)
    (rest : List Token) (next : Expr) (attrsX : List Attribute) (s2 : PState)
    (hd : d.kind = .dot)
    (hna : (⟨rest⟩ : PState).nth 0 ≠ .awaitKw)
    (hbase : (parseRec ext (n + 1)).parse_base [] ⟨false⟩ ⟨rest⟩ =
      .ok ((next, attrsX), s2)) :
    (parseRec ext (n + 2)).parse_chain e ⟨d :: rest⟩ =
      dotClassify (parseRec ext (n + 1)) e d next s2 := by
  simp only [PState.nth, List.drop_zero] at hna
  show (mkRec ext (parseRec ext (n + 1))).parse_chain e ⟨d :: rest⟩ = _
  simp [mkRec, PState.is_eof, PState.nth, hd, parseToken, hna, hbase]

/-- C5: in the postfix chain, after a `.` is consumed: `await` next wraps the
expression as an await-expression; otherwise one primary expression is parsed
with brace-eagerness false and classified — a plain identifier path gives a
named field access, an unattributed numeric literal a tuple-index field
access, and every other parsed form fails with UnsupportedFieldAccess at the
offending sub-expression's span. -/
theorem chain_dot_classification :
    ∀ (ext : Ext) (n : Nat) (e : Expr) (d : Token) (rest : List Token)
      (next : Expr) (attrsX : List Attribute) (s2 : PState),
      d.kind = .dot →
      ((∀ a : Token, rest = [a] → a.kind = .awaitKw →
          Expr.parse_chain (n + 2) ext e ⟨d :: rest⟩ =
            .ok (.exprAwait e.take_attributes.1 e.take_attributes.2 d a,
              ⟨[]⟩)) ∧
       ((⟨rest⟩ : PState).nth 0 ≠ .awaitKw →
        Expr.parse_base (n + 1) ext [] ⟨false⟩ ⟨rest⟩ =
          .ok ((next, attrsX), s2) →
        ((∀ f : ExprField, fieldAccessClass next = some f →
            s2.is_eof = true →
            Expr.parse_chain (n + 2) ext e ⟨d :: rest⟩ =
              .ok (.exprFieldAccess e.take_attributes.1 e.take_attributes.2 d
                f, s2)) ∧
         (fieldAccessClass next = none →
            Expr.parse_chain (n + 2) ext e ⟨d :: rest⟩ =
              .error ⟨next.span, .unsupportedFieldAccess⟩)))) := by
  intro ext n e d rest next attrsX s2 hd
  constructor
  · intro a hrest ha
    subst hrest
    show (mkRec ext (parseRec ext (n + 1))).parse_chain e ⟨[d, a]⟩ = _
    simp [mkRec, PState.is_eof, PState.nth, hd, ha, parseToken,
      parseRec_chain_eof]
  · intro hna hbase
    rw [show Expr.parse_base (n + 1) ext [] ⟨false⟩ ⟨rest⟩
        = (parseRec ext (n + 1)).parse_base [] ⟨false⟩ ⟨rest⟩ from rfl] at hbase
    have hstep := parse_chain_dot_step ext n e d rest next attrsX s2 hd hna
      hbase
    constructor
    · intro f hf he
      rw [show Expr.parse_chain (n + 2) ext e ⟨d :: rest⟩
          = (parseRec ext (n + 2)).parse_chain e ⟨d :: rest⟩ from rfl, hstep]
      cases next
      case path p =>
        rcases hp : p.ident with _ | nm
        · simp [fieldAccessClass, Path.try_as_ident, hp] at hf
        · simp only [fieldAccessClass, Path.try_as_ident, hp,
            Option.map_some'] at hf
          injection hf with hf
          subst hf
          simp only [dotClassify, Path.try_as_ident, hp]
          exact parseRec_chain_eof ext n _ s2 he
      case exprLit attrs lit =>
        cases lit
        case number nl =>
          cases attrs with
          | nil =>
              simp only [fieldAccessClass, Option.some.injEq] at hf
              subst hf
              simp only [dotClassify, List.isEmpty_nil, if_true]
              exact parseRec_chain_eof ext n _ s2 he
          | cons a0 arest => simp [fieldAccessClass] at hf
        all_goals simp [fieldAccessClass] at hf
      all_goals simp [fieldAccessClass] at hf
    · intro hnone
      rw [show Expr.parse_chain (n + 2) ext e ⟨d :: rest⟩
          = (parseRec ext (n + 2)).parse_chain e ⟨d :: rest⟩ from rfl, hstep]
      cases next
      case path p =>
        rcases hp : p.ident with _ | nm
        · simp [dotClassify, Path.try_as_ident, hp, Expr.span]
        · simp [fieldAccessClass, Path.try_as_ident, hp] at hnone
      case exprLit attrs lit =>
        cases lit
        case number nl =>
          cases attrs with
          | nil => simp [fieldAccessClass] at hnone
          | cons a0 arest => simp [dotClassify, Expr.span]
        all_goals simp [dotClassify, Expr.span]
      all_goals simp [dotClassify, Expr.span]

/-- C5 witness: the classification theorem applied at `a . b`: the plain
identifier path `b` after the dot becomes a named field access on `a`. -/
theorem chain_dot_classification_witness :
    Expr.parse_chain 5 testExt (.path testPathA) ⟨[testDotTok, testBTok]⟩ =
      .ok (.exprFieldAccess [] (.path testPathA) testDotTok
        (.identF ⟨⟨4, 5⟩, 2⟩), ⟨[]⟩) :=
  ((chain_dot_classification testExt 3 (.path testPathA) testDotTok [testBTok]
      (.path testPathB) [] ⟨[]⟩ rfl).2 (by decide) rfl).1
    (.identF ⟨⟨4, 5⟩, 2⟩) rfl rfl

/-- C2 (amended): parse_without_eager_brace parses with brace-eagerness false
but binary-eagerness TRUE — like the default entry point it hands the
dispatched-and-chained expression to the binary precedence climber; its
result is exactly the climber's result once dispatch and chain succeed with
no leftover attributes. -/
theorem parse_without_eager_brace_flags :
    ∀ (fuel : Nat) (ext : Ext) (s : PState),
      Expr.parse_without_eager_brace fuel ext s =
        Expr.parse_with fuel ext ⟨false⟩ ⟨true⟩ s ∧
      Expr.parse fuel ext s = Expr.parse_with fuel ext ⟨true⟩ ⟨true⟩ s ∧
      (∀ (n : Nat) (attrs : List Attribute) (s1 s2 s3 : PState) (e e1 : Expr),
        fuel = n + 1 →
        ext.parseAttributes s = .ok (attrs, s1) →
        Expr.parse_base n ext attrs ⟨false⟩ s1 = .ok ((e, []), s2) →
        Expr.parse_chain n ext e s2 = .ok (e1, s3) →
        Expr.parse_without_eager_brace fuel ext s =
          Expr.parse_binary n ext e1 0 ⟨false⟩ s3) := by
  intro fuel ext s
  refine ⟨rfl, rfl, ?_⟩
  intro n attrs s1 s2 s3 e e1 hf hattrs hbase hchain
  subst hf
  rw [show Expr.parse_base n ext attrs ⟨false⟩ s1
      = (parseRec ext n).parse_base attrs ⟨false⟩ s1 from rfl] at hbase
  rw [show Expr.parse_chain n ext e s2
      = (parseRec ext n).parse_chain e s2 from rfl] at hchain
  show (mkRec ext (parseRec ext n)).parse_with ⟨false⟩ ⟨true⟩ s = _
  simp only [mkRec, hattrs, andThen_okStep, hbase, hchain]
  cases hres : (parseRec ext n).parse_binary e1 0 ⟨false⟩ s3 with
  | error err => simp [Expr.parse_binary, hres, optionSpan]
  | ok v =>
      obtain ⟨e2, s4⟩ := v
      simp [Expr.parse_binary, hres, optionSpan]

/-- C2 counterexample: on the stream `a + b`, parse_without_eager_brace does
invoke the binary precedence climber and consumes the trailing `+`, returning
a binary node, while dispatch-plus-chain alone leaves `+ b` unconsumed and
returns the bare path — so the claim that it returns the dispatched-and-
chained expression without climbing is false. -/
theorem parse_without_eager_brace_climbs_cx :
    Expr.parse_without_eager_brace 6 testExt
      ⟨[testATok, testPlusTok, testBTok]⟩ =
      .ok (.exprBinary [] (.path testPathA) testPlusTok none (.path testPathB)
        ⟨10, true, false, 1⟩, ⟨[]⟩) ∧
    Expr.parse_chain 6 testExt (.path testPathA) ⟨[testPlusTok, testBTok]⟩ =
      .ok (.path testPathA, ⟨[testPlusTok, testBTok]⟩) ∧
    Expr.exprBinary [] (.path testPathA) testPlusTok none (.path testPathB)
        ⟨10, true, false, 1⟩ ≠ .path testPathA :=
  ⟨rfl, rfl, by simp⟩

/-- C2 witness: the flags theorem applied at the concrete stream `a + b`:
parse_without_eager_brace's result is the binary climber's result. -/
theorem parse_without_eager_brace_flags_witness :
    Expr.parse_without_eager_brace 6 testExt
      ⟨[testATok, testPlusTok, testBTok]⟩ =
      Expr.parse_binary 5 testExt (.path testPathA) 0 ⟨false⟩
        ⟨[testPlusTok, testBTok]⟩ :=
  (parse_without_eager_brace_flags 6 testExt
      ⟨[testATok, testPlusTok, testBTok]⟩).2.2 5 []
    ⟨[testATok, testPlusTok, testBTok]⟩ ⟨[testPlusTok, testBTok]⟩
    ⟨[testPlusTok, testBTok]⟩ (.path testPathA) (.path testPathA) rfl rfl rfl
    rfl

/-- Bounds of a left fold of span joins: the folded span covers the
accumulator and every attribute span in the list. -/
theorem foldl_join_bounds :
    ∀ (l : List Attribute) (acc : Span),
      (l.foldl (fun x b => x.join b.span) acc).start ≤ acc.start ∧
      acc.finish ≤ (l.foldl (fun x b => x.join b.span) acc).finish ∧
      ∀ a ∈ l,
        (l.foldl (fun x b => x.join b.span) acc).start ≤ a.span.start ∧
        a.span.finish ≤ (l.foldl (fun x b => x.join b.span) acc).finish := by
  intro l
  induction l with
  | nil => intro acc; simp
  | cons b t ih =>
      intro acc
      obtain ⟨ih1, ih2, ih3⟩ := ih (acc.join b.span)
      have hj1 : (acc.join b.span).start ≤ acc.start := by
        simp [Span.join]
      have hj2 : acc.finish ≤ (acc.join b.span).finish := by
        simp [Span.join]
      have hj3 : (acc.join b.span).start ≤ b.span.start := by
        simp [Span.join]
      have hj4 : b.span.finish ≤ (acc.join b.span).finish := by
        simp [Span.join]
      refine ⟨?_, ?_, ?_⟩
      · simpa using le_trans ih1 hj1
      · simpa using le_trans hj2 ih2
      · intro a ha
        rcases List.mem_cons.mp ha with rfl | ha
        · exact ⟨by simpa using le_trans ih1 hj3, by simpa using le_trans hj4 ih2⟩
        · simpa using ih3 a ha

/-- C7: parse_with raises AttributesNotSupported exactly when the parsed
leading attributes remain unattached after the produced expression, only
after base, chain and (under binary-eagerness) the binary tail have all
succeeded — a failure of any stage propagates that failure instead — and the
error's span covers the whole attribute list. -/
theorem parse_with_attributes_not_supported :
    ∀ (ext : Ext) (n : Nat) (eb : EagerBrace) (s s1 s2 s3 : PState)
      (attrs attrsLeft : List Attribute) (e e1 : Expr),
      ext.parseAttributes s = .ok (attrs, s1) →
      Expr.parse_base n ext attrs eb s1 = .ok ((e, attrsLeft), s2) →
      Expr.parse_chain n ext e s2 = .ok (e1, s3) →
      ((∀ (e2 : Expr) (s4 : PState),
          Expr.parse_binary n ext e1 0 eb s3 = .ok (e2, s4) →
          Expr.parse_with (n + 1) ext eb ⟨true⟩ s =
            (match optionSpan attrsLeft with
             | some sp => .error ⟨sp, .attributesNotSupported⟩
             | none => .ok (e2, s4))) ∧
       (∀ err : ParseError,
          Expr.parse_binary n ext e1 0 eb s3 = .error err →
          Expr.parse_with (n + 1) ext eb ⟨true⟩ s = .error err) ∧
       (Expr.parse_with (n + 1) ext eb ⟨false⟩ s =
          (match optionSpan attrsLeft with
           | some sp => .error ⟨sp, .attributesNotSupported⟩
           | none => .ok (e1, s3))) ∧
       (∀ sp : Span, optionSpan attrsLeft = some sp →
          ∀ a ∈ attrsLeft,
            sp.start ≤ a.span.start ∧ a.span.finish ≤ sp.finish)) := by
  intro ext n eb s s1 s2 s3 attrs attrsLeft e e1 h1 h2 h3
  rw [show Expr.parse_base n ext attrs eb s1
      = (parseRec ext n).parse_base attrs eb s1 from rfl] at h2
  rw [show Expr.parse_chain n ext e s2
      = (parseRec ext n).parse_chain e s2 from rfl] at h3
  refine ⟨?_, ?_, ?_, ?_⟩
  · intro e2 s4 hbin
    rw [show Expr.parse_binary n ext e1 0 eb s3
        = (parseRec ext n).parse_binary e1 0 eb s3 from rfl] at hbin
    show (mkRec ext (parseRec ext n)).parse_with eb ⟨true⟩ s = _
    simp only [mkRec, h1, andThen_okStep, h2, h3, hbin, if_true]
  · intro err hbin
    rw [show Expr.parse_binary n ext e1 0 eb s3
        = (parseRec ext n).parse_binary e1 0 eb s3 from rfl] at hbin
    show (mkRec ext (parseRec ext n)).parse_with eb ⟨true⟩ s = _
    simp only [mkRec, h1, andThen_okStep, h2, h3, hbin, if_true,
      andThen_errStep]
  · show (mkRec ext (parseRec ext n)).parse_with eb ⟨false⟩ s = _
    simp only [mkRec, h1, andThen_okStep, h2, h3, if_false,
      Bool.false_eq_true, ite_false]
  · intro sp hsp a ha
    cases attrsLeft with
    | nil => simp [optionSpan] at hsp
    | cons a0 t =>
        simp only [optionSpan, Option.some.injEq] at hsp
        subst hsp
        obtain ⟨b1, b2, b3⟩ := foldl_join_bounds t a0.span
        rcases List.mem_cons.mp ha with rfl | ha
        · exact ⟨b1, b2⟩
        · exact b3 a ha

/-- C7 witness: the detection theorem applied at the concrete stream
`#[attr] a`: the attribute stays unattached to the bare path, and parse_with
fails with AttributesNotSupported spanning the attribute. -/
theorem parse_with_attributes_not_supported_witness :
    Expr.parse_with 6 testExt ⟨true⟩ ⟨true⟩ ⟨[testAttrTok, testIdent5Tok]⟩ =
      .error ⟨⟨0, 1⟩, .attributesNotSupported⟩ :=
  (parse_with_attributes_not_supported testExt 5 ⟨true⟩
      ⟨[testAttrTok, testIdent5Tok]⟩ ⟨[testIdent5Tok]⟩ ⟨[]⟩ ⟨[]⟩
      [⟨⟨0, 1⟩, 7⟩] [⟨⟨0, 1⟩, 7⟩] (.path testPathC) (.path testPathC) rfl rfl
      rfl).1 (.path testPathC) ⟨[]⟩ rfl

end Rune
